import Mathlib

/-
Verification of the bond-dot-credit risk-monitor-engine vault contracts.

The repository contains three vault variants under src/contracts:
  * vault-contract         (VaultContract, three token types)
  * simple-vault-contract  (SimpleVaultContract, three token types)
  * vault-contract-v0      (VaultContract v0, two token types)

This file gives a shallow embedding of the state and the operations of these
contracts and proves (or refutes) the testable properties of the spec.

Modelling conventions:
  * NEAR `UnorderedMap` is modelled as an association list with first-match
    lookup (`getA`) and first-match replacement (`setA`); `insert` on a fresh
    key appends.  `AccountId` is modelled as `String`.
  * `u128` values are `Nat`.  The repository ships no build profile under src/,
    so the overflow behaviour of the compiled artifact is not decided by the
    sources; the spec (sections 4.1 and 4.2) makes arithmetic overflow and
    underflow a failure of the operation.  Modelled from the spec: every u128
    addition or subtraction that would leave [0, 2^128) aborts the operation
    with an error and no state change.
  * `require!` / `assert!` failures panic in the source; on NEAR a panic
    reverts every write of the receipt.  An operation is therefore modelled as
    `Except VaultError State`: an `Except.error` result means the call was
    rejected and the caller's state is unchanged.
  * `env::block_timestamp()` is an explicit `ts` parameter.
-/

namespace VaultSpec

/-- First-match lookup in an association list (NEAR UnorderedMap `get`). -/
def getA {α β : Type} [DecidableEq α] : List (α × β) → α → Option β
  | [], _ => none
  | (k', v) :: rest, k => if k' = k then some v else getA rest k

/-- First-match replacement, appending when the key is absent
(NEAR UnorderedMap `insert`). -/
def setA {α β : Type} [DecidableEq α] : List (α × β) → α → β → List (α × β)
  | [], k, v => [(k, v)]
  | (k', v') :: rest, k, v =>
      if k' = k then (k, v) :: rest else (k', v') :: setA rest k v

/-- Sum of a numeric projection of the values of an association list. -/
def sumBy {α β : Type} (g : β → Nat) : List (α × β) → Nat
  | [] => 0
  | (_, v) :: rest => g v + sumBy g rest

/-- The u128 domain bound. -/
def U128LIM : Nat := 2 ^ 128

/-- INITIAL_SUPPLY constant of vault-contract (1M tokens with 24 decimals). -/
def INITIAL_SUPPLY : Nat := 1000000000000000000000000

/-- TokenType of vault-contract and simple-vault-contract. -/
inductive TokenType where
  | WNEAR
  | USDC
  | USDT
deriving DecidableEq, Repr

/-- VaultConfig of vault-contract and simple-vault-contract. -/
structure VaultConfig where
  ownerId : String
  wnearContract : String
  usdcContract : String
  usdtContract : String
  feePercentage : Nat
  isPaused : Bool
deriving DecidableEq, Repr

/-- DepositEvent of vault-contract and simple-vault-contract (same fields). -/
structure DepositEvent where
  accountId : String
  tokenType : TokenType
  amount : Nat
  vaultSharesMinted : Nat
  timestamp : Nat
deriving DecidableEq, Repr

/-- WithdrawEvent of vault-contract (includes yield_earned). -/
structure VCWithdrawEvent where
  accountId : String
  tokenType : TokenType
  amount : Nat
  vaultSharesBurned : Nat
  yieldEarned : Nat
  timestamp : Nat
deriving DecidableEq, Repr

/-- WithdrawEvent of simple-vault-contract (no yield_earned). -/
structure SVWithdrawEvent where
  accountId : String
  tokenType : TokenType
  amount : Nat
  vaultSharesBurned : Nat
  timestamp : Nat
deriving DecidableEq, Repr

/-- Error outcomes of the vault operations.  The first group mirrors the
`require!`/`assert!` messages of the sources; the `overflow`/underflow group
is the spec-mandated failure of u128 arithmetic leaving its domain. -/
inductive VaultError where
  | vaultPaused
  | zeroAmount
  | insufficientShares
  | insufficientReserve
  | unsupportedToken
  | unauthorized
  | overflow
  | reserveUnderflow
  | sharesUnderflow
  | supplyUnderflow
deriving DecidableEq, Repr

/-! ## VaultContract (src/contracts/vault-contract/src/lib.rs) -/

/-- State of VaultContract: config, total_supply, total_deposits (declared in
the source but never written after init), vault_shares (account -> token ->
amount), token_reserves, and the two event logs. -/
structure VCState where
  config : VaultConfig
  totalSupply : Nat
  totalDeposits : List (TokenType × Nat)
  vaultShares : List (String × List (TokenType × Nat))
  tokenReserves : List (TokenType × Nat)
  depositEvents : List DepositEvent
  withdrawEvents : List VCWithdrawEvent
deriving DecidableEq, Repr

/-- VaultContract::new. -/
def vcNew (ownerId wnear usdc usdt : String) (fee : Nat) : VCState :=
  { config :=
      { ownerId := ownerId, wnearContract := wnear, usdcContract := usdc,
        usdtContract := usdt, feePercentage := fee, isPaused := false }
    totalSupply := INITIAL_SUPPLY
    totalDeposits := []
    vaultShares := []
    tokenReserves := []
    depositEvents := []
    withdrawEvents := [] }

/-- VaultContract::get_config. -/
def vcGetConfig (s : VCState) : VaultConfig := s.config

/-- VaultContract::get_total_supply. -/
def vcGetTotalSupply (s : VCState) : Nat := s.totalSupply

/-- VaultContract::get_token_reserves. -/
def vcGetTokenReserves (s : VCState) (t : TokenType) : Nat :=
  (getA s.tokenReserves t).getD 0

/-- VaultContract::get_user_vault_shares. -/
def vcGetUserVaultShares (s : VCState) (a : String) (t : TokenType) : Nat :=
  match getA s.vaultShares a with
  | some m => (getA m t).getD 0
  | none => 0

/-- VaultContract::get_user_total_shares: folds the three token types over the
account's shares map, adding each present entry. -/
def vcGetUserTotalShares (s : VCState) (a : String) : Nat :=
  match getA s.vaultShares a with
  | some m =>
      0 + (getA m TokenType.WNEAR).getD 0 + (getA m TokenType.USDC).getD 0 +
        (getA m TokenType.USDT).getD 0
  | none => 0

/-- VaultContract::get_deposit_events: most recent first, default limit 100. -/
def vcGetDepositEvents (s : VCState) (limit : Option Nat) : List DepositEvent :=
  s.depositEvents.reverse.take (limit.getD 100)

/-- VaultContract::get_withdraw_events: most recent first, default limit 100. -/
def vcGetWithdrawEvents (s : VCState) (limit : Option Nat) : List VCWithdrawEvent :=
  s.withdrawEvents.reverse.take (limit.getD 100)

/-- VaultContract::get_token_contract. -/
def vcGetTokenContract (s : VCState) (t : TokenType) : String :=
  match t with
  | TokenType.WNEAR => s.config.wnearContract
  | TokenType.USDC => s.config.usdcContract
  | TokenType.USDT => s.config.usdtContract

/-- VaultContract::get_token_type_from_contract (panics on unknown ids). -/
def vcGetTokenTypeFromContract (s : VCState) (cid : String) :
    Except VaultError TokenType :=
  if cid = s.config.wnearContract then Except.ok TokenType.WNEAR
  else if cid = s.config.usdcContract then Except.ok TokenType.USDC
  else if cid = s.config.usdtContract then Except.ok TokenType.USDT
  else Except.error VaultError.unsupportedToken

/-- VaultContract::update_token_reserves: adds on deposit, subtracts on
withdraw.  The source computes `current + amount` / `current - amount` on raw
u128; per the modelling convention, leaving [0, 2^128) is an error. -/
def vcUpdateTokenReserves (s : VCState) (t : TokenType) (amount : Nat)
    (isDeposit : Bool) : Except VaultError VCState :=
  let current := (getA s.tokenReserves t).getD 0
  if isDeposit then
    if current + amount < U128LIM then
      Except.ok { s with tokenReserves := setA s.tokenReserves t (current + amount) }
    else Except.error VaultError.overflow
  else
    if amount ≤ current then
      Except.ok { s with tokenReserves := setA s.tokenReserves t (current - amount) }
    else Except.error VaultError.reserveUnderflow

/-- VaultContract::update_user_vault_shares: creates the per-account map on
first touch, then adds or subtracts on the per-token entry. -/
def vcUpdateUserVaultShares (s : VCState) (a : String) (t : TokenType)
    (amount : Nat) (isDeposit : Bool) : Except VaultError VCState :=
  let userMap := (getA s.vaultShares a).getD []
  let current := (getA userMap t).getD 0
  if isDeposit then
    if current + amount < U128LIM then
      Except.ok { s with
        vaultShares := setA s.vaultShares a (setA userMap t (current + amount)) }
    else Except.error VaultError.overflow
  else
    if amount ≤ current then
      Except.ok { s with
        vaultShares := setA s.vaultShares a (setA userMap t (current - amount)) }
    else Except.error VaultError.sharesUnderflow

/-- VaultContract::deposit: checks paused and zero amount, then only issues
the ft_transfer_call promise chained to on_tokens_transferred; it performs no
state mutation itself.  The returned string is the token contract the
transfer instruction is addressed to. -/
def vcDeposit (s : VCState) (_senderId : String) (t : TokenType) (amount : Nat) :
    Except VaultError (VCState × String) :=
  if s.config.isPaused then Except.error VaultError.vaultPaused
  else if amount = 0 then Except.error VaultError.zeroAmount
  else Except.ok (s, vcGetTokenContract s t)

/-- VaultContract::on_tokens_transferred: the callback chained after the
deposit's ft_transfer_call.  The `success` argument is the outcome of that
external transfer promise; the source body never calls env::promise_result,
so the outcome is ignored and the callback credits unconditionally: it adds
to the token reserve, mints shares 1:1, increases total_supply, and pushes a
DepositEvent (the only event kind; the contract has no Failed event). -/
def vcOnTokensTransferred (s : VCState) (senderId : String) (amount : Nat)
    (tokenId : String) (_success : Bool) (ts : Nat) : Except VaultError VCState :=
  match vcGetTokenTypeFromContract s tokenId with
  | Except.error e => Except.error e
  | Except.ok tokenType =>
    match vcUpdateTokenReserves s tokenType amount true with
    | Except.error e => Except.error e
    | Except.ok s1 =>
      match vcUpdateUserVaultShares s1 senderId tokenType amount true with
      | Except.error e => Except.error e
      | Except.ok s2 =>
        if s2.totalSupply + amount < U128LIM then
          Except.ok { s2 with
            totalSupply := s2.totalSupply + amount,
            depositEvents := s2.depositEvents ++
              [{ accountId := senderId, tokenType := tokenType, amount := amount,
                 vaultSharesMinted := amount, timestamp := ts }] }
        else Except.error VaultError.overflow

/-- VaultContract::withdraw: checks paused, zero amount, and the caller's
share balance; then debits the reserve, burns the shares, decreases
total_supply, pushes a WithdrawEvent, and issues a fire-and-forget
ft_transfer (no callback is attached to it). -/
def vcWithdraw (s : VCState) (senderId : String) (t : TokenType) (amount : Nat)
    (ts : Nat) : Except VaultError VCState :=
  if s.config.isPaused then Except.error VaultError.vaultPaused
  else if amount = 0 then Except.error VaultError.zeroAmount
  else if vcGetUserVaultShares s senderId t < amount then
    Except.error VaultError.insufficientShares
  else
    match vcUpdateTokenReserves s t amount false with
    | Except.error e => Except.error e
    | Except.ok s1 =>
      match vcUpdateUserVaultShares s1 senderId t amount false with
      | Except.error e => Except.error e
      | Except.ok s2 =>
        if amount ≤ s2.totalSupply then
          Except.ok { s2 with
            totalSupply := s2.totalSupply - amount,
            withdrawEvents := s2.withdrawEvents ++
              [{ accountId := senderId, tokenType := t, amount := amount,
                 vaultSharesBurned := amount, yieldEarned := 0, timestamp := ts }] }
        else Except.error VaultError.supplyUnderflow

/-- The ft_transfer issued at the end of VaultContract::withdraw carries no
`.then` continuation in the source: whichever way the external transfer leg
resolves, no vault code runs, so resolution leaves the vault state as is. -/
def vcResolveWithdrawTransfer (s : VCState) (_success : Bool) : VCState := s

/-- VaultContract::pause_vault (owner only). -/
def vcPauseVault (s : VCState) (caller : String) : Except VaultError VCState :=
  if caller = s.config.ownerId then
    Except.ok { s with config := { s.config with isPaused := true } }
  else Except.error VaultError.unauthorized

/-- VaultContract::unpause_vault (owner only). -/
def vcUnpauseVault (s : VCState) (caller : String) : Except VaultError VCState :=
  if caller = s.config.ownerId then
    Except.ok { s with config := { s.config with isPaused := false } }
  else Except.error VaultError.unauthorized

/-- VaultContract::update_config (owner only). -/
def vcUpdateConfig (s : VCState) (caller : String) (newConfig : VaultConfig) :
    Except VaultError VCState :=
  if caller = s.config.ownerId then Except.ok { s with config := newConfig }
  else Except.error VaultError.unauthorized

/-- The view calls of VaultContract (all take `&self` in the source). -/
inductive VCQuery where
  | getConfig
  | getTotalSupply
  | getTokenReserves (t : TokenType)
  | getUserVaultShares (a : String) (t : TokenType)
  | getUserTotalShares (a : String)
  | getDepositEvents (limit : Option Nat)
  | getWithdrawEvents (limit : Option Nat)
deriving DecidableEq, Repr

/-- Answers of the VaultContract view calls. -/
inductive VCAnswer where
  | config (c : VaultConfig)
  | nat (n : Nat)
  | depositEvents (es : List DepositEvent)
  | withdrawEvents (es : List VCWithdrawEvent)
deriving DecidableEq, Repr

/-- Executing a VaultContract view call: the answer is computed from the
borrowed state (each view clones what it returns) and the state after the
call is the state the `&self` borrow was taken on. -/
def vcRunQuery (s : VCState) (q : VCQuery) : VCAnswer × VCState :=
  match q with
  | VCQuery.getConfig => (VCAnswer.config (vcGetConfig s), s)
  | VCQuery.getTotalSupply => (VCAnswer.nat (vcGetTotalSupply s), s)
  | VCQuery.getTokenReserves t => (VCAnswer.nat (vcGetTokenReserves s t), s)
  | VCQuery.getUserVaultShares a t => (VCAnswer.nat (vcGetUserVaultShares s a t), s)
  | VCQuery.getUserTotalShares a => (VCAnswer.nat (vcGetUserTotalShares s a), s)
  | VCQuery.getDepositEvents limit =>
      (VCAnswer.depositEvents (vcGetDepositEvents s limit), s)
  | VCQuery.getWithdrawEvents limit =>
      (VCAnswer.withdrawEvents (vcGetWithdrawEvents s limit), s)

/-- Per-asset sum over all accounts of the vault_shares entries of
VaultContract. -/
def vcSumShares (s : VCState) (t : TokenType) : Nat :=
  sumBy (fun m => (getA m t).getD 0) s.vaultShares

/-- Sum over all accounts and all three asset classes of the vault_shares
entries of VaultContract. -/
def vcSumAllShares (s : VCState) : Nat :=
  vcSumShares s TokenType.WNEAR + vcSumShares s TokenType.USDC +
    vcSumShares s TokenType.USDT

/-- The states of VaultContract reachable from `new` by its mutating entry
points.  A deposit's external leg always runs the chained
on_tokens_transferred callback (with either outcome), and `deposit` itself
writes nothing, so confirmed callbacks, withdrawals and the admin calls are
the state transitions. -/
inductive VCReach : VCState → Prop where
  | init (ownerId wnear usdc usdt : String) (fee : Nat) :
      VCReach (vcNew ownerId wnear usdc usdt fee)
  | depositCallback {s s' : VCState} (sender : String) (amount : Nat)
      (tokenId : String) (success : Bool) (ts : Nat) :
      VCReach s → vcOnTokensTransferred s sender amount tokenId success ts = Except.ok s' →
      VCReach s'
  | withdrawStep {s s' : VCState} (sender : String) (t : TokenType)
      (amount ts : Nat) :
      VCReach s → vcWithdraw s sender t amount ts = Except.ok s' → VCReach s'
  | pauseStep {s s' : VCState} (caller : String) :
      VCReach s → vcPauseVault s caller = Except.ok s' → VCReach s'
  | unpauseStep {s s' : VCState} (caller : String) :
      VCReach s → vcUnpauseVault s caller = Except.ok s' → VCReach s'
  | updateConfigStep {s s' : VCState} (caller : String) (cfg : VaultConfig) :
      VCReach s → vcUpdateConfig s caller cfg = Except.ok s' → VCReach s'

/-! ## SimpleVaultContract (src/contracts/simple-vault-contract/src/lib.rs) -/

/-- UserShares record of SimpleVaultContract. -/
structure SVUserShares where
  wnearShares : Nat
  usdcShares : Nat
  usdtShares : Nat
deriving DecidableEq, Repr

/-- The default UserShares record (all three balances zero), used by every
`unwrap_or` in the source. -/
def svZeroShares : SVUserShares :=
  { wnearShares := 0, usdcShares := 0, usdtShares := 0 }

/-- Field selection on a UserShares record by token type. -/
def svSharesOf (u : SVUserShares) (t : TokenType) : Nat :=
  match t with
  | TokenType.WNEAR => u.wnearShares
  | TokenType.USDC => u.usdcShares
  | TokenType.USDT => u.usdtShares

/-- Adding to the field of a UserShares record selected by token type. -/
def svAddShares (u : SVUserShares) (t : TokenType) (amount : Nat) : SVUserShares :=
  match t with
  | TokenType.WNEAR => { u with wnearShares := u.wnearShares + amount }
  | TokenType.USDC => { u with usdcShares := u.usdcShares + amount }
  | TokenType.USDT => { u with usdtShares := u.usdtShares + amount }

/-- Subtracting from the field of a UserShares record selected by token type. -/
def svSubShares (u : SVUserShares) (t : TokenType) (amount : Nat) : SVUserShares :=
  match t with
  | TokenType.WNEAR => { u with wnearShares := u.wnearShares - amount }
  | TokenType.USDC => { u with usdcShares := u.usdcShares - amount }
  | TokenType.USDT => { u with usdtShares := u.usdtShares - amount }

/-- State of SimpleVaultContract. -/
structure SVState where
  config : VaultConfig
  totalSupply : Nat
  tokenReserves : List (TokenType × Nat)
  userShares : List (String × SVUserShares)
  depositEvents : List DepositEvent
  withdrawEvents : List SVWithdrawEvent
deriving DecidableEq, Repr

/-- SimpleVaultContract::new: reserves are pre-inserted as 0 for the three
token types, total supply starts at 0. -/
def svNew (ownerId wnear usdc usdt : String) (fee : Nat) : SVState :=
  { config :=
      { ownerId := ownerId, wnearContract := wnear, usdcContract := usdc,
        usdtContract := usdt, feePercentage := fee, isPaused := false }
    totalSupply := 0
    tokenReserves :=
      [(TokenType.WNEAR, 0), (TokenType.USDC, 0), (TokenType.USDT, 0)]
    userShares := []
    depositEvents := []
    withdrawEvents := [] }

/-- SimpleVaultContract::get_config. -/
def svGetConfig (s : SVState) : VaultConfig := s.config

/-- SimpleVaultContract::get_total_supply. -/
def svGetTotalSupply (s : SVState) : Nat := s.totalSupply

/-- SimpleVaultContract::get_token_reserves. -/
def svGetTokenReserves (s : SVState) (t : TokenType) : Nat :=
  (getA s.tokenReserves t).getD 0

/-- SimpleVaultContract::get_user_vault_shares. -/
def svGetUserVaultShares (s : SVState) (a : String) (t : TokenType) : Nat :=
  svSharesOf ((getA s.userShares a).getD svZeroShares) t

/-- SimpleVaultContract::get_user_total_shares. -/
def svGetUserTotalShares (s : SVState) (a : String) : Nat :=
  let u := (getA s.userShares a).getD svZeroShares
  u.wnearShares + u.usdcShares + u.usdtShares

/-- SimpleVaultContract::get_deposit_events: the caller's events, most recent
first, capped by `limit`. -/
def svGetDepositEvents (s : SVState) (a : String) (limit : Nat) : List DepositEvent :=
  ((s.depositEvents.filter (fun e => e.accountId = a)).reverse).take limit

/-- SimpleVaultContract::get_withdraw_events: the caller's events, most
recent first, capped by `limit`. -/
def svGetWithdrawEvents (s : SVState) (a : String) (limit : Nat) :
    List SVWithdrawEvent :=
  ((s.withdrawEvents.filter (fun e => e.accountId = a)).reverse).take limit

/-- SimpleVaultContract::deposit: performs no paused, zero-amount or policy
validation at all; it credits the caller's share field, the token reserve and
the total supply 1:1 and pushes a DepositEvent, returning the minted share
count. -/
def svDeposit (s : SVState) (senderId : String) (t : TokenType) (amount : Nat)
    (ts : Nat) : Except VaultError (SVState × Nat) :=
  let u := (getA s.userShares senderId).getD svZeroShares
  let r := (getA s.tokenReserves t).getD 0
  if svSharesOf u t + amount < U128LIM then
    if r + amount < U128LIM then
      if s.totalSupply + amount < U128LIM then
        Except.ok
          ({ s with
              userShares := setA s.userShares senderId (svAddShares u t amount),
              tokenReserves := setA s.tokenReserves t (r + amount),
              totalSupply := s.totalSupply + amount,
              depositEvents := s.depositEvents ++
                [{ accountId := senderId, tokenType := t, amount := amount,
                   vaultSharesMinted := amount, timestamp := ts }] }, amount)
      else Except.error VaultError.overflow
    else Except.error VaultError.overflow
  else Except.error VaultError.overflow

/-- SimpleVaultContract::withdraw: requires the caller's share field to cover
the amount and the token reserve to cover the 1:1 payout; then debits shares,
reserve and total supply and pushes a WithdrawEvent, returning the payout. -/
def svWithdraw (s : SVState) (senderId : String) (t : TokenType) (amount : Nat)
    (ts : Nat) : Except VaultError (SVState × Nat) :=
  let u := (getA s.userShares senderId).getD svZeroShares
  if svSharesOf u t < amount then Except.error VaultError.insufficientShares
  else
    let r := (getA s.tokenReserves t).getD 0
    if r < amount then Except.error VaultError.insufficientReserve
    else if amount ≤ s.totalSupply then
      Except.ok
        ({ s with
            userShares := setA s.userShares senderId (svSubShares u t amount),
            tokenReserves := setA s.tokenReserves t (r - amount),
            totalSupply := s.totalSupply - amount,
            withdrawEvents := s.withdrawEvents ++
              [{ accountId := senderId, tokenType := t, amount := amount,
                 vaultSharesBurned := amount, timestamp := ts }] }, amount)
    else Except.error VaultError.supplyUnderflow

/-- The view calls of SimpleVaultContract (all take `&self` in the source). -/
inductive SVQuery where
  | getConfig
  | getTotalSupply
  | getTokenReserves (t : TokenType)
  | getUserVaultShares (a : String) (t : TokenType)
  | getUserTotalShares (a : String)
  | getDepositEvents (a : String) (limit : Nat)
  | getWithdrawEvents (a : String) (limit : Nat)
deriving DecidableEq, Repr

/-- Answers of the SimpleVaultContract view calls. -/
inductive SVAnswer where
  | config (c : VaultConfig)
  | nat (n : Nat)
  | depositEvents (es : List DepositEvent)
  | withdrawEvents (es : List SVWithdrawEvent)
deriving DecidableEq, Repr

/-- Executing a SimpleVaultContract view call; as in `vcRunQuery`, the state
after the call is the state the `&self` borrow was taken on. -/
def svRunQuery (s : SVState) (q : SVQuery) : SVAnswer × SVState :=
  match q with
  | SVQuery.getConfig => (SVAnswer.config (svGetConfig s), s)
  | SVQuery.getTotalSupply => (SVAnswer.nat (svGetTotalSupply s), s)
  | SVQuery.getTokenReserves t => (SVAnswer.nat (svGetTokenReserves s t), s)
  | SVQuery.getUserVaultShares a t => (SVAnswer.nat (svGetUserVaultShares s a t), s)
  | SVQuery.getUserTotalShares a => (SVAnswer.nat (svGetUserTotalShares s a), s)
  | SVQuery.getDepositEvents a limit =>
      (SVAnswer.depositEvents (svGetDepositEvents s a limit), s)
  | SVQuery.getWithdrawEvents a limit =>
      (SVAnswer.withdrawEvents (svGetWithdrawEvents s a limit), s)

/-- Sum over all accounts and all three asset classes of the user_shares
records of SimpleVaultContract. -/
def svSumAllShares (s : SVState) : Nat :=
  sumBy (fun u => u.wnearShares + u.usdcShares + u.usdtShares) s.userShares

/-- The states of SimpleVaultContract reachable from `new` by deposit and
withdraw (its only mutating entry points; the contract has no pause or
config-update operation). -/
inductive SVReach : SVState → Prop where
  | init (ownerId wnear usdc usdt : String) (fee : Nat) :
      SVReach (svNew ownerId wnear usdc usdt fee)
  | depositStep (s : SVState) (p : SVState × Nat) (sender : String)
      (t : TokenType) (amount ts : Nat) :
      SVReach s → svDeposit s sender t amount ts = Except.ok p → SVReach p.1
  | withdrawStep (s : SVState) (p : SVState × Nat) (sender : String)
      (t : TokenType) (amount ts : Nat) :
      SVReach s → svWithdraw s sender t amount ts = Except.ok p → SVReach p.1

/-! ## VaultContract v0 (src/contracts/vault-contract-v0/src/lib.rs) -/

/-- VaultAccount record of vault-contract-v0. -/
structure V0VaultAccount where
  accountId : String
  vaultShares : Nat
  wnearBalance : Nat
  usdcBalance : Nat
deriving DecidableEq, Repr

/-- VaultContract v0 get_user_vault_shares: reads the accounts map, returning
0 when the account has no record. -/
def v0GetUserVaultShares (accounts : List (String × V0VaultAccount))
    (a : String) : Nat :=
  match getA accounts a with
  | some acc => acc.vaultShares
  | none => 0

/-- The event-log append of vault-contract-v0 (used for both the deposit and
the withdraw log): pushes at the tail and, when the length then exceeds 1000,
removes the entry at index 0 (the oldest). -/
def v0PushEventCapped {α : Type} (events : List α) (e : α) : List α :=
  let es := events ++ [e]
  if 1000 < es.length then es.drop 1 else es

/-- Repeated confirmed 1-unit WNEAR deposits into a fresh VaultContract by
one account: the scenario used to exercise the deposit-event log. -/
def vcDepositN : Nat → VCState
  | 0 => vcNew "owner" "wnear" "usdc" "usdt" 0
  | n + 1 =>
      match vcOnTokensTransferred (vcDepositN n) "alice" 1 "wnear" true 0 with
      | Except.ok s' => s'
      | Except.error _ => vcDepositN n

/-- A fresh VaultContract after one confirmed deposit of 100 WNEAR by
"alice" (scenario state for the withdraw-compensation claim). -/
def vcAfterDep100 : VCState :=
  match vcOnTokensTransferred (vcNew "owner" "wnear" "usdc" "usdt" 0)
      "alice" 100 "wnear" true 0 with
  | Except.ok s' => s'
  | Except.error _ => vcNew "owner" "wnear" "usdc" "usdt" 0

/-- The state after "alice" then withdraws her 100 shares from
`vcAfterDep100` (scenario state for the withdraw-compensation claim). -/
def vcAfterWd100 : VCState :=
  match vcWithdraw vcAfterDep100 "alice" TokenType.WNEAR 100 0 with
  | Except.ok s' => s'
  | Except.error _ => vcAfterDep100

/-- A fresh VaultContract paused by its owner (scenario state for the
validation-ordering claims). -/
def vcPausedFresh : VCState :=
  match vcPauseVault (vcNew "owner" "wnear" "usdc" "usdt" 0) "owner" with
  | Except.ok s' => s'
  | Except.error _ => vcNew "owner" "wnear" "usdc" "usdt" 0

/-- A fresh SimpleVaultContract after "alice" deposits 50 WNEAR (scenario
state for the reserve-debit claim). -/
def svAfterDep50 : SVState :=
  match svDeposit (svNew "owner" "wnear" "usdc" "usdt" 0) "alice" TokenType.WNEAR 50 0 with
  | Except.ok p => p.1
  | Except.error _ => svNew "owner" "wnear" "usdc" "usdt" 0

/-- The result of "alice" then withdrawing 20 WNEAR shares from
`svAfterDep50` (scenario state for the reserve-debit claim). -/
def svAfterWd20 : SVState × Nat :=
  match svWithdraw svAfterDep50 "alice" TokenType.WNEAR 20 0 with
  | Except.ok p => p
  | Except.error _ => (svAfterDep50, 0)

/-- Accounting invariant of VaultContract: every token reserve equals the sum
over accounts of the share balances for that token, and the global total
supply is the initial 10^24 pre-mint plus the sum of all share balances. -/
def VCInv (s : VCState) : Prop :=
  (∀ t, vcGetTokenReserves s t = vcSumShares s t) ∧
  s.totalSupply = INITIAL_SUPPLY + vcSumAllShares s

/-! ## Association-list lemmas -/

theorem getA_setA_same {α β : Type} [DecidableEq α] (m : List (α × β)) (k : α)
    (v : β) : getA (setA m k v) k = some v := by
  induction m with
  | nil => simp [getA, setA]
  | cons p rest ih =>
      obtain ⟨k', v'⟩ := p
      by_cases hk : k' = k
      · subst hk
        simp [getA, setA]
      · simp [getA, setA, hk, ih]

theorem getA_setA_ne {α β : Type} [DecidableEq α] (m : List (α × β))
    (k k' : α) (v : β) (h : k' ≠ k) : getA (setA m k v) k' = getA m k' := by
  have h' : k ≠ k' := Ne.symm h
  induction m with
  | nil => simp [getA, setA, h']
  | cons p rest ih =>
      obtain ⟨k0, v0⟩ := p
      by_cases hk : k0 = k
      · subst hk
        simp [getA, setA, h']
      · simp [getA, setA, hk, ih]

theorem sumBy_setA_none {α β : Type} [DecidableEq α] {m : List (α × β)}
    {k : α} (g : β → Nat) (v : β) (h : getA m k = none) :
    sumBy g (setA m k v) = sumBy g m + g v := by
  induction m with
  | nil => simp [sumBy, setA]
  | cons p rest ih =>
      obtain ⟨k0, v0⟩ := p
      by_cases hk : k0 = k
      · subst hk
        simp [getA] at h
      · simp only [getA, if_neg hk] at h
        simp only [setA, if_neg hk, sumBy, ih h]
        omega

theorem sumBy_setA_some {α β : Type} [DecidableEq α] {m : List (α × β)}
    {k : α} {w : β} (g : β → Nat) (v : β) (h : getA m k = some w) :
    sumBy g (setA m k v) + g w = sumBy g m + g v := by
  induction m with
  | nil => simp [getA] at h
  | cons p rest ih =>
      obtain ⟨k0, v0⟩ := p
      by_cases hk : k0 = k
      · subst hk
        simp [getA] at h
        subst h
        simp [setA, sumBy]
        omega
      · simp only [getA, if_neg hk] at h
        have := ih h
        simp only [setA, if_neg hk, sumBy]
        omega

theorem getA_le_sumBy {α β : Type} [DecidableEq α] {m : List (α × β)}
    {k : α} {w : β} (g : β → Nat) (h : getA m k = some w) :
    g w ≤ sumBy g m := by
  induction m with
  | nil => simp [getA] at h
  | cons p rest ih =>
      obtain ⟨k0, v0⟩ := p
      by_cases hk : k0 = k
      · subst hk
        simp [getA] at h
        subst h
        simp only [sumBy]
        omega
      · simp only [getA, if_neg hk] at h
        have := ih h
        simp only [sumBy]
        omega

/-! ## VaultContract getter and update lemmas -/

theorem vcGetUserVaultShares_eq (s : VCState) (a : String) (t : TokenType) :
    vcGetUserVaultShares s a t =
      (getA ((getA s.vaultShares a).getD []) t).getD 0 := by
  unfold vcGetUserVaultShares
  cases getA s.vaultShares a <;> simp [getA]

theorem vcGetUserVaultShares_le_sum (s : VCState) (a : String) (t : TokenType) :
    vcGetUserVaultShares s a t ≤ vcSumShares s t := by
  unfold vcGetUserVaultShares vcSumShares
  cases hA : getA s.vaultShares a with
  | none => simp
  | some w => exact getA_le_sumBy (fun m => (getA m t).getD 0) hA

theorem vcUTR_dep_inv {s s' : VCState} {t : TokenType} {amt : Nat}
    (h : vcUpdateTokenReserves s t amt true = Except.ok s') :
    vcGetTokenReserves s t + amt < U128LIM ∧
    s' = { s with tokenReserves := setA s.tokenReserves t (vcGetTokenReserves s t + amt) } := by
  simp only [vcUpdateTokenReserves, if_true] at h
  split at h
  · exact ⟨by assumption, (Except.ok.inj h).symm⟩
  · cases h

theorem vcUTR_wd_inv {s s' : VCState} {t : TokenType} {amt : Nat}
    (h : vcUpdateTokenReserves s t amt false = Except.ok s') :
    amt ≤ vcGetTokenReserves s t ∧
    s' = { s with tokenReserves := setA s.tokenReserves t (vcGetTokenReserves s t - amt) } := by
  simp only [vcUpdateTokenReserves, Bool.false_eq_true, if_false] at h
  split at h
  · exact ⟨by assumption, (Except.ok.inj h).symm⟩
  · cases h

theorem vcUUVS_dep_inv {s s' : VCState} {a : String} {t : TokenType} {amt : Nat}
    (h : vcUpdateUserVaultShares s a t amt true = Except.ok s') :
    vcGetUserVaultShares s a t + amt < U128LIM ∧
    s' = { s with vaultShares := setA s.vaultShares a (setA ((getA s.vaultShares a).getD []) t (vcGetUserVaultShares s a t + amt)) } := by
  simp only [vcUpdateUserVaultShares, if_true] at h
  rw [vcGetUserVaultShares_eq]
  split at h
  · exact ⟨by assumption, (Except.ok.inj h).symm⟩
  · cases h

theorem vcUUVS_wd_inv {s s' : VCState} {a : String} {t : TokenType} {amt : Nat}
    (h : vcUpdateUserVaultShares s a t amt false = Except.ok s') :
    amt ≤ vcGetUserVaultShares s a t ∧
    s' = { s with vaultShares := setA s.vaultShares a (setA ((getA s.vaultShares a).getD []) t (vcGetUserVaultShares s a t - amt)) } := by
  simp only [vcUpdateUserVaultShares, Bool.false_eq_true, if_false] at h
  rw [vcGetUserVaultShares_eq]
  split at h
  · exact ⟨by assumption, (Except.ok.inj h).symm⟩
  · cases h

/-- Effect of replacing account `a`'s entry for token `t` by `n` on the
per-token share sum for `t` itself. -/
theorem vcSumShares_setUser_same (s : VCState) (a : String) (t : TokenType)
    (n : Nat) :
    vcSumShares { s with vaultShares := setA s.vaultShares a (setA ((getA s.vaultShares a).getD []) t n) } t + vcGetUserVaultShares s a t = vcSumShares s t + n := by
  rw [vcGetUserVaultShares_eq]
  unfold vcSumShares
  dsimp only
  cases hA : getA s.vaultShares a with
  | none =>
      simp only [Option.getD_none]
      have h2 := sumBy_setA_none (fun m => (getA m t).getD 0) (setA [] t n) hA
      simp only [getA_setA_same, Option.getD_some] at h2
      simp only [getA, Option.getD_none]
      omega
  | some w =>
      simp only [Option.getD_some]
      have h2 := sumBy_setA_some (fun m => (getA m t).getD 0) (setA w t n) hA
      simp only [getA_setA_same, Option.getD_some] at h2
      omega

/-- Replacing account `a`'s entry for token `t` leaves the share sum of every
other token unchanged. -/
theorem vcSumShares_setUser_other (s : VCState) (a : String) (t t' : TokenType)
    (n : Nat) (hne : t' ≠ t) :
    vcSumShares { s with vaultShares := setA s.vaultShares a (setA ((getA s.vaultShares a).getD []) t n) } t' = vcSumShares s t' := by
  unfold vcSumShares
  dsimp only
  cases hA : getA s.vaultShares a with
  | none =>
      simp only [Option.getD_none]
      have h2 := sumBy_setA_none (fun m => (getA m t').getD 0) (setA [] t n) hA
      simp only [getA_setA_ne _ _ _ _ hne] at h2
      simp only [getA, Option.getD_none] at h2
      omega
  | some w =>
      simp only [Option.getD_some]
      have h2 := sumBy_setA_some (fun m => (getA m t').getD 0) (setA w t n) hA
      simp only [getA_setA_ne _ _ _ _ hne] at h2
      omega

theorem vcGetTokenReserves_congr {s s' : VCState}
    (h : s'.tokenReserves = s.tokenReserves) (t : TokenType) :
    vcGetTokenReserves s' t = vcGetTokenReserves s t := by
  unfold vcGetTokenReserves
  rw [h]

theorem vcGetUserVaultShares_congr {s s' : VCState}
    (h : s'.vaultShares = s.vaultShares) (a : String) (t : TokenType) :
    vcGetUserVaultShares s' a t = vcGetUserVaultShares s a t := by
  unfold vcGetUserVaultShares
  rw [h]

theorem vcSumShares_congr {s s' : VCState}
    (h : s'.vaultShares = s.vaultShares) (t : TokenType) :
    vcSumShares s' t = vcSumShares s t := by
  unfold vcSumShares
  rw [h]

/-- Field-level effect of a successful reserve credit. -/
theorem vcUTR_dep_effect {s s' : VCState} {t : TokenType} {amt : Nat}
    (h : vcUpdateTokenReserves s t amt true = Except.ok s') :
    s'.config = s.config ∧ s'.totalSupply = s.totalSupply ∧
    s'.vaultShares = s.vaultShares ∧ s'.depositEvents = s.depositEvents ∧
    s'.withdrawEvents = s.withdrawEvents ∧
    vcGetTokenReserves s' t = vcGetTokenReserves s t + amt ∧
    (∀ t', t' ≠ t → vcGetTokenReserves s' t' = vcGetTokenReserves s t') := by
  obtain ⟨hg, rfl⟩ := vcUTR_dep_inv h
  refine ⟨rfl, rfl, rfl, rfl, rfl, ?_, ?_⟩
  · unfold vcGetTokenReserves
    dsimp only
    rw [getA_setA_same]
    simp only [Option.getD_some]
  · intro t' hne
    unfold vcGetTokenReserves
    dsimp only
    rw [getA_setA_ne _ _ _ _ hne]

/-- Field-level effect of a successful reserve debit. -/
theorem vcUTR_wd_effect {s s' : VCState} {t : TokenType} {amt : Nat}
    (h : vcUpdateTokenReserves s t amt false = Except.ok s') :
    amt ≤ vcGetTokenReserves s t ∧
    s'.config = s.config ∧ s'.totalSupply = s.totalSupply ∧
    s'.vaultShares = s.vaultShares ∧ s'.depositEvents = s.depositEvents ∧
    s'.withdrawEvents = s.withdrawEvents ∧
    vcGetTokenReserves s' t + amt = vcGetTokenReserves s t ∧
    (∀ t', t' ≠ t → vcGetTokenReserves s' t' = vcGetTokenReserves s t') := by
  obtain ⟨hg, rfl⟩ := vcUTR_wd_inv h
  refine ⟨hg, rfl, rfl, rfl, rfl, rfl, ?_, ?_⟩
  · unfold vcGetTokenReserves at hg ⊢
    dsimp only
    rw [getA_setA_same]
    simp only [Option.getD_some]
    omega
  · intro t' hne
    unfold vcGetTokenReserves
    dsimp only
    rw [getA_setA_ne _ _ _ _ hne]

/-- Field-level effect of a successful share mint for account `a`, token `t`. -/
theorem vcUUVS_dep_effect {s s' : VCState} {a : String} {t : TokenType}
    {amt : Nat} (h : vcUpdateUserVaultShares s a t amt true = Except.ok s') :
    s'.config = s.config ∧ s'.totalSupply = s.totalSupply ∧
    s'.tokenReserves = s.tokenReserves ∧ s'.depositEvents = s.depositEvents ∧
    s'.withdrawEvents = s.withdrawEvents ∧
    vcGetUserVaultShares s' a t = vcGetUserVaultShares s a t + amt ∧
    vcSumShares s' t = vcSumShares s t + amt ∧
    (∀ t', t' ≠ t → vcSumShares s' t' = vcSumShares s t') := by
  obtain ⟨hg, rfl⟩ := vcUUVS_dep_inv h
  refine ⟨rfl, rfl, rfl, rfl, rfl, ?_, ?_, ?_⟩
  · rw [vcGetUserVaultShares_eq]
    dsimp only
    rw [getA_setA_same]
    simp only [Option.getD_some]
    rw [getA_setA_same]
    simp only [Option.getD_some]
  · have := vcSumShares_setUser_same s a t (vcGetUserVaultShares s a t + amt)
    omega
  · intro t' hne
    exact vcSumShares_setUser_other s a t t' _ hne

/-- Field-level effect of a successful share burn for account `a`, token `t`. -/
theorem vcUUVS_wd_effect {s s' : VCState} {a : String} {t : TokenType}
    {amt : Nat} (h : vcUpdateUserVaultShares s a t amt false = Except.ok s') :
    amt ≤ vcGetUserVaultShares s a t ∧
    s'.config = s.config ∧ s'.totalSupply = s.totalSupply ∧
    s'.tokenReserves = s.tokenReserves ∧ s'.depositEvents = s.depositEvents ∧
    s'.withdrawEvents = s.withdrawEvents ∧
    vcGetUserVaultShares s' a t + amt = vcGetUserVaultShares s a t ∧
    vcSumShares s' t + amt = vcSumShares s t ∧
    (∀ t', t' ≠ t → vcSumShares s' t' = vcSumShares s t') := by
  obtain ⟨hg, rfl⟩ := vcUUVS_wd_inv h
  refine ⟨hg, rfl, rfl, rfl, rfl, rfl, ?_, ?_, ?_⟩
  · rw [vcGetUserVaultShares_eq]
    dsimp only
    rw [getA_setA_same]
    simp only [Option.getD_some]
    rw [getA_setA_same]
    simp only [Option.getD_some]
    omega
  · have h1 := vcSumShares_setUser_same s a t (vcGetUserVaultShares s a t - amt)
    have h2 := vcGetUserVaultShares_le_sum s a t
    omega
  · intro t' hne
    exact vcSumShares_setUser_other s a t t' _ hne

/-- Inversion of a successful deposit callback of VaultContract. -/
theorem vcOTT_ok_inv {s s' : VCState} {sender : String} {amt : Nat}
    {tokenId : String} {succ : Bool} {ts : Nat}
    (h : vcOnTokensTransferred s sender amt tokenId succ ts = Except.ok s') :
    ∃ t s1 s2,
      vcGetTokenTypeFromContract s tokenId = Except.ok t ∧
      vcUpdateTokenReserves s t amt true = Except.ok s1 ∧
      vcUpdateUserVaultShares s1 sender t amt true = Except.ok s2 ∧
      s2.totalSupply + amt < U128LIM ∧
      s' = { s2 with totalSupply := s2.totalSupply + amt, depositEvents := s2.depositEvents ++ [{ accountId := sender, tokenType := t, amount := amt, vaultSharesMinted := amt, timestamp := ts }] } := by
  unfold vcOnTokensTransferred at h
  split at h
  · cases h
  · rename_i t htok
    split at h
    · cases h
    · rename_i s1 h1
      split at h
      · cases h
      · rename_i s2 h2
        split at h
        · exact ⟨t, s1, s2, htok, h1, h2, by assumption, (Except.ok.inj h).symm⟩
        · cases h

/-- Inversion of a successful withdrawal of VaultContract. -/
theorem vcWithdraw_ok_inv {s s' : VCState} {sender : String} {t : TokenType}
    {amt ts : Nat} (h : vcWithdraw s sender t amt ts = Except.ok s') :
    s.config.isPaused = false ∧ amt ≠ 0 ∧
    amt ≤ vcGetUserVaultShares s sender t ∧
    ∃ s1 s2,
      vcUpdateTokenReserves s t amt false = Except.ok s1 ∧
      vcUpdateUserVaultShares s1 sender t amt false = Except.ok s2 ∧
      amt ≤ s2.totalSupply ∧
      s' = { s2 with totalSupply := s2.totalSupply - amt, withdrawEvents := s2.withdrawEvents ++ [{ accountId := sender, tokenType := t, amount := amt, vaultSharesBurned := amt, yieldEarned := 0, timestamp := ts }] } := by
  unfold vcWithdraw at h
  split at h
  · cases h
  · rename_i hp
    split at h
    · cases h
    · rename_i hz
      split at h
      · cases h
      · rename_i hins
        split at h
        · cases h
        · rename_i s1 h1
          split at h
          · cases h
          · rename_i s2 h2
            split at h
            · rename_i hsup
              refine ⟨?_, hz, ?_, s1, s2, h1, h2, hsup, (Except.ok.inj h).symm⟩
              · simp at hp
                exact hp
              · omega
            · cases h

/-- Inversion of a successful pause of VaultContract. -/
theorem vcPause_ok_inv {s s' : VCState} {caller : String}
    (h : vcPauseVault s caller = Except.ok s') :
    caller = s.config.ownerId ∧ s' = { s with config := { s.config with isPaused := true } } := by
  unfold vcPauseVault at h
  split at h
  · exact ⟨by assumption, (Except.ok.inj h).symm⟩
  · cases h

/-- Inversion of a successful unpause of VaultContract. -/
theorem vcUnpause_ok_inv {s s' : VCState} {caller : String}
    (h : vcUnpauseVault s caller = Except.ok s') :
    caller = s.config.ownerId ∧ s' = { s with config := { s.config with isPaused := false } } := by
  unfold vcUnpauseVault at h
  split at h
  · exact ⟨by assumption, (Except.ok.inj h).symm⟩
  · cases h

/-- Inversion of a successful config update of VaultContract. -/
theorem vcUpdateConfig_ok_inv {s s' : VCState} {caller : String}
    {cfg : VaultConfig} (h : vcUpdateConfig s caller cfg = Except.ok s') :
    caller = s.config.ownerId ∧ s' = { s with config := cfg } := by
  unfold vcUpdateConfig at h
  split at h
  · exact ⟨by assumption, (Except.ok.inj h).symm⟩
  · cases h

theorem vcSumAllShares_congr {s s' : VCState}
    (h : s'.vaultShares = s.vaultShares) :
    vcSumAllShares s' = vcSumAllShares s := by
  unfold vcSumAllShares
  rw [vcSumShares_congr h, vcSumShares_congr h, vcSumShares_congr h]

/-- Summing the per-token effects: one token incremented, the others fixed. -/
theorem vcSumAll_inc {s s' : VCState} (t0 : TokenType) (amt : Nat)
    (hsame : ∀ t', t' ≠ t0 → vcSumShares s' t' = vcSumShares s t')
    (hinc : vcSumShares s' t0 = vcSumShares s t0 + amt) :
    vcSumAllShares s' = vcSumAllShares s + amt := by
  unfold vcSumAllShares
  cases t0 with
  | WNEAR =>
      rw [hinc, hsame TokenType.USDC (by decide), hsame TokenType.USDT (by decide)]
      omega
  | USDC =>
      rw [hinc, hsame TokenType.WNEAR (by decide), hsame TokenType.USDT (by decide)]
      omega
  | USDT =>
      rw [hinc, hsame TokenType.WNEAR (by decide), hsame TokenType.USDC (by decide)]
      omega

/-- Summing the per-token effects: one token decremented, the others fixed. -/
theorem vcSumAll_dec {s s' : VCState} (t0 : TokenType) (amt : Nat)
    (hsame : ∀ t', t' ≠ t0 → vcSumShares s' t' = vcSumShares s t')
    (hdec : vcSumShares s' t0 + amt = vcSumShares s t0) :
    vcSumAllShares s' + amt = vcSumAllShares s := by
  unfold vcSumAllShares
  cases t0 with
  | WNEAR =>
      rw [hsame TokenType.USDC (by decide), hsame TokenType.USDT (by decide)]
      omega
  | USDC =>
      rw [hsame TokenType.WNEAR (by decide), hsame TokenType.USDT (by decide)]
      omega
  | USDT =>
      rw [hsame TokenType.WNEAR (by decide), hsame TokenType.USDC (by decide)]
      omega

/-- The accounting invariant holds in every reachable VaultContract state. -/
theorem vcReach_inv {s : VCState} (h : VCReach s) : VCInv s := by
  induction h with
  | init o w u t fee =>
      constructor
      · intro tt
        simp [vcNew, vcGetTokenReserves, vcSumShares, getA, sumBy]
      · simp [vcNew, vcSumAllShares, vcSumShares, sumBy]
  | depositCallback sender amt tokenId succ ts hr heq ih =>
      obtain ⟨t0, s1, s2, htok, h1, h2, hlim, rfl⟩ := vcOTT_ok_inv heq
      obtain ⟨hc1, hs1, hv1, hd1, hw1, hres1, hresO1⟩ := vcUTR_dep_effect h1
      obtain ⟨hc2, hs2, hr2, hd2, hw2, hbal2, hsum2, hsumO2⟩ := vcUUVS_dep_effect h2
      obtain ⟨ihR, ihS⟩ := ih
      constructor
      · intro tt
        have hres : vcGetTokenReserves { s2 with totalSupply := s2.totalSupply + amt, depositEvents := s2.depositEvents ++ [{ accountId := sender, tokenType := t0, amount := amt, vaultSharesMinted := amt, timestamp := ts }] } tt = vcGetTokenReserves s2 tt :=
          vcGetTokenReserves_congr rfl tt
        have hsum : vcSumShares { s2 with totalSupply := s2.totalSupply + amt, depositEvents := s2.depositEvents ++ [{ accountId := sender, tokenType := t0, amount := amt, vaultSharesMinted := amt, timestamp := ts }] } tt = vcSumShares s2 tt :=
          vcSumShares_congr rfl tt
        rw [hres, hsum]
        have hres2 : vcGetTokenReserves s2 tt = vcGetTokenReserves s1 tt :=
          vcGetTokenReserves_congr hr2 tt
        have hsum1 := vcSumShares_congr hv1 tt
        by_cases htt : tt = t0
        · subst htt
          rw [hres2, hres1, hsum2, hsum1, ihR tt]
        · rw [hres2, hresO1 tt htt, hsumO2 tt htt, hsum1, ihR tt]
      · have hAllF : vcSumAllShares { s2 with totalSupply := s2.totalSupply + amt, depositEvents := s2.depositEvents ++ [{ accountId := sender, tokenType := t0, amount := amt, vaultSharesMinted := amt, timestamp := ts }] } = vcSumAllShares s2 :=
          vcSumAllShares_congr rfl
        have hAll2 : vcSumAllShares s2 = vcSumAllShares s1 + amt :=
          vcSumAll_inc t0 amt hsumO2 hsum2
        have hAll1 := vcSumAllShares_congr hv1
        dsimp only
        rw [hAllF, hAll2, hAll1, hs2, hs1, ihS]
        omega
  | withdrawStep sender t amt ts hr heq ih =>
      obtain ⟨hpz, hz, hbal, s1, s2, h1, h2, hsup, rfl⟩ := vcWithdraw_ok_inv heq
      obtain ⟨hge1, hc1, hs1, hv1, hd1, hw1, hres1, hresO1⟩ := vcUTR_wd_effect h1
      obtain ⟨hge2, hc2, hs2, hr2, hd2, hw2, hbal2, hsum2, hsumO2⟩ := vcUUVS_wd_effect h2
      obtain ⟨ihR, ihS⟩ := ih
      constructor
      · intro tt
        have hres : vcGetTokenReserves { s2 with totalSupply := s2.totalSupply - amt, withdrawEvents := s2.withdrawEvents ++ [{ accountId := sender, tokenType := t, amount := amt, vaultSharesBurned := amt, yieldEarned := 0, timestamp := ts }] } tt = vcGetTokenReserves s2 tt :=
          vcGetTokenReserves_congr rfl tt
        have hsum : vcSumShares { s2 with totalSupply := s2.totalSupply - amt, withdrawEvents := s2.withdrawEvents ++ [{ accountId := sender, tokenType := t, amount := amt, vaultSharesBurned := amt, yieldEarned := 0, timestamp := ts }] } tt = vcSumShares s2 tt :=
          vcSumShares_congr rfl tt
        rw [hres, hsum]
        have hres2 : vcGetTokenReserves s2 tt = vcGetTokenReserves s1 tt :=
          vcGetTokenReserves_congr hr2 tt
        have hsum1 := vcSumShares_congr hv1
        by_cases htt : tt = t
        · subst htt
          have hR := ihR tt
          rw [hres2]
          rw [hsum1 tt] at hsum2
          omega
        · rw [hres2, hresO1 tt htt, hsumO2 tt htt, hsum1 tt, ihR tt]
      · have hAllF : vcSumAllShares { s2 with totalSupply := s2.totalSupply - amt, withdrawEvents := s2.withdrawEvents ++ [{ accountId := sender, tokenType := t, amount := amt, vaultSharesBurned := amt, yieldEarned := 0, timestamp := ts }] } = vcSumAllShares s2 :=
          vcSumAllShares_congr rfl
        have hAll2 : vcSumAllShares s2 + amt = vcSumAllShares s1 :=
          vcSumAll_dec t amt hsumO2 hsum2
        have hAll1 := vcSumAllShares_congr hv1
        dsimp only
        rw [hAllF]
        rw [hs2, hs1] at hsup ⊢
        rw [hAll1] at hAll2
        omega
  | pauseStep caller hr heq ih =>
      obtain ⟨hc, rfl⟩ := vcPause_ok_inv heq
      exact ih
  | unpauseStep caller hr heq ih =>
      obtain ⟨hc, rfl⟩ := vcUnpause_ok_inv heq
      exact ih
  | updateConfigStep caller cfg hr heq ih =>
      obtain ⟨hc, rfl⟩ := vcUpdateConfig_ok_inv heq
      exact ih

/-! ## SimpleVaultContract lemmas -/

theorem svSharesOf_add (u : SVUserShares) (t : TokenType) (amt : Nat) :
    svSharesOf (svAddShares u t amt) t = svSharesOf u t + amt := by
  cases t <;> simp [svSharesOf, svAddShares]

theorem svTotal_add (u : SVUserShares) (t : TokenType) (amt : Nat) :
    (svAddShares u t amt).wnearShares + (svAddShares u t amt).usdcShares +
      (svAddShares u t amt).usdtShares =
    (u.wnearShares + u.usdcShares + u.usdtShares) + amt := by
  cases t <;> simp [svAddShares] <;> omega

theorem svTotal_sub (u : SVUserShares) (t : TokenType) (amt : Nat)
    (h : amt ≤ svSharesOf u t) :
    (svSubShares u t amt).wnearShares + (svSubShares u t amt).usdcShares +
      (svSubShares u t amt).usdtShares + amt =
    u.wnearShares + u.usdcShares + u.usdtShares := by
  cases t <;> simp [svSubShares] <;> simp [svSharesOf] at h <;> omega

/-- Inversion of a successful SimpleVaultContract deposit. -/
theorem svDeposit_ok_inv {s : SVState} {p : SVState × Nat} {sender : String}
    {t : TokenType} {amt ts : Nat}
    (h : svDeposit s sender t amt ts = Except.ok p) :
    svGetUserVaultShares s sender t + amt < U128LIM ∧
    svGetTokenReserves s t + amt < U128LIM ∧
    s.totalSupply + amt < U128LIM ∧
    p = ({ s with userShares := setA s.userShares sender (svAddShares ((getA s.userShares sender).getD svZeroShares) t amt), tokenReserves := setA s.tokenReserves t (svGetTokenReserves s t + amt), totalSupply := s.totalSupply + amt, depositEvents := s.depositEvents ++ [{ accountId := sender, tokenType := t, amount := amt, vaultSharesMinted := amt, timestamp := ts }] }, amt) := by
  simp only [svDeposit] at h
  split at h
  · split at h
    · split at h
      · exact ⟨by assumption, by assumption, by assumption, (Except.ok.inj h).symm⟩
      · cases h
    · cases h
  · cases h

/-- Inversion of a successful SimpleVaultContract withdrawal. -/
theorem svWithdraw_ok_inv {s : SVState} {p : SVState × Nat} {sender : String}
    {t : TokenType} {amt ts : Nat}
    (h : svWithdraw s sender t amt ts = Except.ok p) :
    amt ≤ svGetUserVaultShares s sender t ∧
    amt ≤ svGetTokenReserves s t ∧
    amt ≤ s.totalSupply ∧
    p = ({ s with userShares := setA s.userShares sender (svSubShares ((getA s.userShares sender).getD svZeroShares) t amt), tokenReserves := setA s.tokenReserves t (svGetTokenReserves s t - amt), totalSupply := s.totalSupply - amt, withdrawEvents := s.withdrawEvents ++ [{ accountId := sender, tokenType := t, amount := amt, vaultSharesBurned := amt, timestamp := ts }] }, amt) := by
  simp only [svWithdraw] at h
  split at h
  · cases h
  · rename_i hs
    split at h
    · cases h
    · rename_i hr
      split at h
      · rename_i hsup
        refine ⟨?_, ?_, hsup, (Except.ok.inj h).symm⟩
        · unfold svGetUserVaultShares
          omega
        · unfold svGetTokenReserves
          omega
      · cases h

/-- Replacing account `a`'s record by one with `amt` more shares in token `t`
adds `amt` to the all-accounts all-assets share sum. -/
theorem svSumAll_addShares (s : SVState) (a : String) (t : TokenType)
    (amt : Nat) :
    sumBy (fun u => u.wnearShares + u.usdcShares + u.usdtShares) (setA s.userShares a (svAddShares ((getA s.userShares a).getD svZeroShares) t amt)) = svSumAllShares s + amt := by
  unfold svSumAllShares
  cases hA : getA s.userShares a with
  | none =>
      simp only [Option.getD_none]
      have h2 := sumBy_setA_none (fun u => u.wnearShares + u.usdcShares + u.usdtShares) (svAddShares svZeroShares t amt) hA
      simp only at h2
      have h3 : (svAddShares svZeroShares t amt).wnearShares + (svAddShares svZeroShares t amt).usdcShares + (svAddShares svZeroShares t amt).usdtShares = amt := by
        cases t <;> simp [svAddShares, svZeroShares]
      omega
  | some w =>
      simp only [Option.getD_some]
      have h2 := sumBy_setA_some (fun u => u.wnearShares + u.usdcShares + u.usdtShares) (svAddShares w t amt) hA
      simp only at h2
      have h3 := svTotal_add w t amt
      omega

/-- Replacing account `a`'s record by one with `amt` fewer shares in token
`t` removes `amt` from the all-accounts all-assets share sum. -/
theorem svSumAll_subShares (s : SVState) (a : String) (t : TokenType)
    (amt : Nat) (hle : amt ≤ svGetUserVaultShares s a t) :
    sumBy (fun u => u.wnearShares + u.usdcShares + u.usdtShares) (setA s.userShares a (svSubShares ((getA s.userShares a).getD svZeroShares) t amt)) + amt = svSumAllShares s := by
  unfold svSumAllShares
  unfold svGetUserVaultShares at hle
  cases hA : getA s.userShares a with
  | none =>
      rw [hA] at hle
      simp only [Option.getD_none] at hle ⊢
      have hz : amt = 0 := by cases t <;> simp [svSharesOf, svZeroShares] at hle <;> omega
      subst hz
      have h2 := sumBy_setA_none (fun u => u.wnearShares + u.usdcShares + u.usdtShares) (svSubShares svZeroShares t 0) hA
      simp only at h2
      have h3 : (svSubShares svZeroShares t 0).wnearShares + (svSubShares svZeroShares t 0).usdcShares + (svSubShares svZeroShares t 0).usdtShares = 0 := by
        cases t <;> simp [svSubShares, svZeroShares]
      omega
  | some w =>
      rw [hA] at hle
      simp only [Option.getD_some] at hle ⊢
      have h2 := sumBy_setA_some (fun u => u.wnearShares + u.usdcShares + u.usdtShares) (svSubShares w t amt) hA
      simp only at h2
      have h3 := svTotal_sub w t amt hle
      omega

/-- The share-sum/total-supply invariant of SimpleVaultContract. -/
theorem svReach_supply {s : SVState} (h : SVReach s) :
    s.totalSupply = svSumAllShares s := by
  induction h with
  | init o w u t fee =>
      simp [svNew, svSumAllShares, sumBy]
  | depositStep s0 p sender t amt ts hr heq ih =>
      obtain ⟨hg1, hg2, hg3, rfl⟩ := svDeposit_ok_inv heq
      have h2 := svSumAll_addShares s0 sender t amt
      unfold svSumAllShares at h2 ih ⊢
      dsimp only
      omega
  | withdrawStep s0 p sender t amt ts hr heq ih =>
      obtain ⟨hg1, hg2, hg3, rfl⟩ := svWithdraw_ok_inv heq
      have h2 := svSumAll_subShares s0 sender t amt hg1
      unfold svSumAllShares at h2 ih ⊢
      dsimp only
      omega

/-! ## Withdrawal effect and deposit-scenario lemmas of VaultContract -/

/-- Net effect of a successful VaultContract withdrawal on the caller's
balance and the token reserve: both are debited by exactly the amount. -/
theorem vcWithdraw_balances {s s' : VCState} {sender : String} {t : TokenType}
    {amt ts : Nat} (h : vcWithdraw s sender t amt ts = Except.ok s') :
    amt ≤ vcGetUserVaultShares s sender t ∧ amt ≤ vcGetTokenReserves s t ∧
    vcGetUserVaultShares s' sender t + amt = vcGetUserVaultShares s sender t ∧
    vcGetTokenReserves s' t + amt = vcGetTokenReserves s t := by
  obtain ⟨hpz, hz, hbal, s1, s2, h1, h2, hsup, rfl⟩ := vcWithdraw_ok_inv h
  obtain ⟨hge1, hc1, hs1, hv1, hd1, hw1, hres1, hresO1⟩ := vcUTR_wd_effect h1
  obtain ⟨hge2, hc2, hs2, hr2, hd2, hw2, hbal2, hsum2, hsumO2⟩ := vcUUVS_wd_effect h2
  have hbal1 := vcGetUserVaultShares_congr hv1 sender t
  refine ⟨hbal, hge1, ?_, ?_⟩
  · show vcGetUserVaultShares s2 sender t + amt = vcGetUserVaultShares s sender t
    rw [hbal2, hbal1]
  · show vcGetTokenReserves s2 t + amt = vcGetTokenReserves s t
    rw [vcGetTokenReserves_congr hr2 t, hres1]

/-- The deposit callback succeeds whenever the token id resolves and the
three u128 additions stay in range. -/
theorem vcOTT_ok_exists {s : VCState} {sender tokenId : String} {amt : Nat}
    {t0 : TokenType} (succ : Bool) (ts : Nat)
    (htok : vcGetTokenTypeFromContract s tokenId = Except.ok t0)
    (hg1 : vcGetTokenReserves s t0 + amt < U128LIM)
    (hg2 : vcGetUserVaultShares s sender t0 + amt < U128LIM)
    (hg3 : s.totalSupply + amt < U128LIM) :
    ∃ s', vcOnTokensTransferred s sender amt tokenId succ ts = Except.ok s' := by
  unfold vcOnTokensTransferred
  rw [htok]
  dsimp only
  cases hU : vcUpdateTokenReserves s t0 amt true with
  | error e =>
      exfalso
      simp only [vcUpdateTokenReserves, if_true] at hU
      split at hU
      · cases hU
      · rename_i hguard
        exact hguard hg1
  | ok s1 =>
      dsimp only
      obtain ⟨hc1, hs1, hv1, hd1x, hw1x, hres1x, hresO1x⟩ := vcUTR_dep_effect hU
      cases hV : vcUpdateUserVaultShares s1 sender t0 amt true with
      | error e =>
          exfalso
          have hx : vcGetUserVaultShares s1 sender t0 + amt < U128LIM := by
            rw [vcGetUserVaultShares_congr hv1]
            exact hg2
          rw [vcGetUserVaultShares_eq] at hx
          simp only [vcUpdateUserVaultShares, if_true] at hV
          split at hV
          · cases hV
          · rename_i hguard
            exact hguard hx
      | ok s2 =>
          dsimp only
          obtain ⟨hc2, hs2, hr2, hd2x, hw2x, hbal2x, hsum2x, hsumO2x⟩ :=
            vcUUVS_dep_effect hV
          have hg : s2.totalSupply + amt < U128LIM := by
            rw [hs2, hs1]
            exact hg3
          rw [if_pos hg]
          exact ⟨_, rfl⟩

/-- After `n ≤ 1001` confirmed unit deposits, the deposit-event log of
VaultContract holds exactly `n` entries (and the state stays reachable with
the expected balances). -/
theorem vcDepositN_spec : ∀ n, n ≤ 1001 →
    VCReach (vcDepositN n) ∧
    (vcDepositN n).config = (vcNew "owner" "wnear" "usdc" "usdt" 0).config ∧
    (vcDepositN n).totalSupply = INITIAL_SUPPLY + n ∧
    vcGetTokenReserves (vcDepositN n) TokenType.WNEAR = n ∧
    vcGetUserVaultShares (vcDepositN n) "alice" TokenType.WNEAR = n ∧
    (vcDepositN n).depositEvents.length = n := by
  intro n
  induction n with
  | zero =>
      intro _
      refine ⟨VCReach.init "owner" "wnear" "usdc" "usdt" 0, rfl, by simp [vcDepositN, vcNew], ?_, ?_, rfl⟩
      · simp [vcDepositN, vcNew, vcGetTokenReserves, getA]
      · simp [vcDepositN, vcNew, vcGetUserVaultShares, getA]
  | succ n ihn =>
      intro hle
      obtain ⟨hreach, hcfg, hsup, hres, hbal, hlen⟩ := ihn (by omega)
      have hULIM : U128LIM = 340282366920938463463374607431768211456 := by
        norm_num [U128LIM]
      have hIS : INITIAL_SUPPLY = 1000000000000000000000000 := rfl
      have htok : vcGetTokenTypeFromContract (vcDepositN n) "wnear" = Except.ok TokenType.WNEAR := by
        unfold vcGetTokenTypeFromContract
        rw [hcfg]
        simp [vcNew]
      have hg1 : vcGetTokenReserves (vcDepositN n) TokenType.WNEAR + 1 < U128LIM := by
        rw [hres, hULIM]
        omega
      have hg2 : vcGetUserVaultShares (vcDepositN n) "alice" TokenType.WNEAR + 1 < U128LIM := by
        rw [hbal, hULIM]
        omega
      have hg3 : (vcDepositN n).totalSupply + 1 < U128LIM := by
        rw [hsup, hULIM, hIS]
        omega
      obtain ⟨s', hok⟩ := vcOTT_ok_exists true 0 htok hg1 hg2 hg3
      have hstep : vcDepositN (n + 1) = s' := by
        unfold vcDepositN
        rw [hok]
      obtain ⟨t0', s1, s2, htok', h1, h2, hlim, hs'⟩ := vcOTT_ok_inv hok
      rw [htok] at htok'
      have ht0 : TokenType.WNEAR = t0' := Except.ok.inj htok'
      subst ht0
      obtain ⟨hc1, hs1, hv1, hd1, hw1, hres1, hresO1⟩ := vcUTR_dep_effect h1
      obtain ⟨hc2, hs2, hr2, hd2, hw2, hbal2, hsum2, hsumO2⟩ := vcUUVS_dep_effect h2
      rw [hstep, hs']
      refine ⟨?_, ?_, ?_, ?_, ?_, ?_⟩
      · rw [← hs']
        exact VCReach.depositCallback "alice" 1 "wnear" true 0 hreach hok
      · show s2.config = (vcNew "owner" "wnear" "usdc" "usdt" 0).config
        rw [hc2, hc1, hcfg]
      · show s2.totalSupply + 1 = INITIAL_SUPPLY + (n + 1)
        rw [hs2, hs1, hsup]
        omega
      · show vcGetTokenReserves s2 TokenType.WNEAR = n + 1
        rw [vcGetTokenReserves_congr hr2, hres1, hres]
      · show vcGetUserVaultShares s2 "alice" TokenType.WNEAR = n + 1
        rw [hbal2, vcGetUserVaultShares_congr hv1, hbal]
      · show (s2.depositEvents ++ [({ accountId := "alice", tokenType := TokenType.WNEAR, amount := 1, vaultSharesMinted := 1, timestamp := 0 } : DepositEvent)]).length = n + 1
        rw [List.length_append, hd2, hd1, hlen]
        simp

/-! ## Claim theorems -/

/-- C1 counterexample: immediately after VaultContract::new (an operation the
claim covers), the sum over all accounts of WNEAR share balances is 0 while
the recorded total supply is the 10^24 initial pre-mint, so the per-asset
sum-equals-recorded-supply identity is false; the contract moreover records
only one global supply, not one per asset. -/
theorem C1_per_asset_supply_counterexample :
    vcSumShares (vcNew "owner" "wnear" "usdc" "usdt" 0) TokenType.WNEAR = 0 ∧
    vcGetTotalSupply (vcNew "owner" "wnear" "usdc" "usdt" 0) = 1000000000000000000000000 ∧
    vcSumShares (vcNew "owner" "wnear" "usdc" "usdt" 0) TokenType.WNEAR ≠ vcGetTotalSupply (vcNew "owner" "wnear" "usdc" "usdt" 0) := by
  refine ⟨rfl, rfl, ?_⟩
  decide

/-- C1 (amended): the contracts record a single global total supply.  In
every reachable SimpleVaultContract state it equals the sum over all
accounts and all asset classes of share balances; in every reachable
VaultContract state it equals the 10^24 initial pre-mint plus that sum. -/
theorem C1_global_supply_invariant :
    (∀ s : SVState, SVReach s → svGetTotalSupply s = svSumAllShares s) ∧
    (∀ s : VCState, VCReach s → vcGetTotalSupply s = INITIAL_SUPPLY + vcSumAllShares s) := by
  constructor
  · intro s h
    exact svReach_supply h
  · intro s h
    exact (vcReach_inv h).2

/-- C1 witness: the amended invariant evaluated at the two initial states. -/
theorem C1_global_supply_invariant_witness :
    svGetTotalSupply (svNew "o" "w" "u" "t" 0) = svSumAllShares (svNew "o" "w" "u" "t" 0) ∧
    vcGetTotalSupply (vcNew "o" "w" "u" "t" 0) = INITIAL_SUPPLY + vcSumAllShares (vcNew "o" "w" "u" "t" 0) :=
  ⟨C1_global_supply_invariant.1 _ (SVReach.init "o" "w" "u" "t" 0),
   C1_global_supply_invariant.2 _ (VCReach.init "o" "w" "u" "t" 0)⟩

/-- C2: evaluating VaultContract::on_tokens_transferred at the failing input
(fresh vault, deposit of 100 WNEAR whose external transfer leg resolved with
success = false): the callback still mints 100 shares to the depositor,
still credits the reserve by 100, and appends a deposit event — the source
never inspects the promise result and has no Failed event at all, so the
claimed no-mint/no-credit/Failed-event behaviour does not happen. -/
theorem C2_deposit_failed_transfer_still_mints :
    (vcOnTokensTransferred (vcNew "owner" "wnear" "usdc" "usdt" 0) "alice" 100 "wnear" false 0).map
        (fun s' => (vcGetUserVaultShares s' "alice" TokenType.WNEAR,
                    vcGetTokenReserves s' TokenType.WNEAR,
                    s'.depositEvents.length)) =
      Except.ok (100, 100, 1) := by
  rfl

/-- C3 counterexample: after a confirmed deposit of 100 WNEAR for "alice",
`withdraw(alice, WNEAR, 100)` burns the shares and debits the reserve, and
when its external transfer leg then resolves with success = false (the
source attaches no callback to the outbound ft_transfer) the balance and the
reserve remain 0 instead of being restored to their pre-withdraw value 100. -/
theorem C3_failed_withdraw_not_restored_counterexample :
    vcGetUserVaultShares vcAfterDep100 "alice" TokenType.WNEAR = 100 ∧
    vcGetTokenReserves vcAfterDep100 TokenType.WNEAR = 100 ∧
    vcWithdraw vcAfterDep100 "alice" TokenType.WNEAR 100 0 = Except.ok vcAfterWd100 ∧
    vcGetUserVaultShares (vcResolveWithdrawTransfer vcAfterWd100 false) "alice" TokenType.WNEAR = 0 ∧
    vcGetTokenReserves (vcResolveWithdrawTransfer vcAfterWd100 false) TokenType.WNEAR = 0 := by
  exact ⟨rfl, rfl, rfl, rfl, rfl⟩

/-- C3 (amended): VaultContract::withdraw applies the speculative burn and
debit, but registers no resolution callback on the outbound transfer, so a
failed external leg triggers no compensation: resolution leaves the state
exactly as after the burn/debit, with balance and reserve short of their
pre-withdraw values by the withdrawn amount. -/
theorem C3_no_compensation :
    ∀ (s s' : VCState) (a : String) (t : TokenType) (m ts : Nat),
      vcWithdraw s a t m ts = Except.ok s' →
      vcResolveWithdrawTransfer s' false = s' ∧
      vcGetUserVaultShares (vcResolveWithdrawTransfer s' false) a t + m = vcGetUserVaultShares s a t ∧
      vcGetTokenReserves (vcResolveWithdrawTransfer s' false) t + m = vcGetTokenReserves s t := by
  intro s s' a t m ts h
  obtain ⟨hb, hr, hbal, hres⟩ := vcWithdraw_balances h
  exact ⟨rfl, hbal, hres⟩

/-- C3 witness: the amended statement at the deposit-100-withdraw-100
scenario. -/
theorem C3_no_compensation_witness :
    vcResolveWithdrawTransfer vcAfterWd100 false = vcAfterWd100 ∧
    vcGetUserVaultShares (vcResolveWithdrawTransfer vcAfterWd100 false) "alice" TokenType.WNEAR + 100 = vcGetUserVaultShares vcAfterDep100 "alice" TokenType.WNEAR ∧
    vcGetTokenReserves (vcResolveWithdrawTransfer vcAfterWd100 false) TokenType.WNEAR + 100 = vcGetTokenReserves vcAfterDep100 TokenType.WNEAR :=
  C3_no_compensation vcAfterDep100 vcAfterWd100 "alice" TokenType.WNEAR 100 0 (by rfl)

/-- C4: no reserve ever goes below zero and no reserve debit ever underflows
its unsigned subtraction.  For VaultContract: in every reachable state every
token reserve equals the sum over accounts of that token's share balances,
so withdraw's reserve debit never fails with reserveUnderflow.  For
SimpleVaultContract: the explicit reserve require! precedes the debit, so in
every state every successful withdraw has amount <= reserve and the debited
reserve is exactly the old reserve minus the amount (no wrap-around). -/
theorem C4_reserve_never_underflows :
    (∀ s : VCState, VCReach s →
      (∀ t, vcGetTokenReserves s t = vcSumShares s t) ∧
      (∀ (sender : String) (t : TokenType) (m ts : Nat),
        vcWithdraw s sender t m ts ≠ Except.error VaultError.reserveUnderflow)) ∧
    (∀ (s : SVState) (p : SVState × Nat) (sender : String) (t : TokenType) (m ts : Nat),
      svWithdraw s sender t m ts = Except.ok p →
      m ≤ svGetTokenReserves s t ∧
      svGetTokenReserves p.1 t + m = svGetTokenReserves s t) := by
  constructor
  · intro s h
    have hinv := vcReach_inv h
    refine ⟨hinv.1, ?_⟩
    intro sender t m ts heq
    have hinv1 := hinv.1 t
    unfold vcWithdraw at heq
    split at heq
    · simp at heq
    · split at heq
      · simp at heq
      · split at heq
        · simp at heq
        · rename_i hinsuff
          have hleb : m ≤ vcGetUserVaultShares s sender t := by omega
          have hler : m ≤ vcGetTokenReserves s t := by
            have hbs := vcGetUserVaultShares_le_sum s sender t
            omega
          split at heq
          · rename_i e hU
            simp only [vcUpdateTokenReserves, Bool.false_eq_true, if_false] at hU
            split at hU
            · cases hU
            · rename_i hguard
              unfold vcGetTokenReserves at hler
              exact hguard hler
          · rename_i s1 hU
            obtain ⟨hge1, hc1, hs1, hv1, hd1, hw1, hres1, hresO1⟩ := vcUTR_wd_effect hU
            split at heq
            · rename_i e hV
              have hleb1 : m ≤ vcGetUserVaultShares s1 sender t := by
                rw [vcGetUserVaultShares_congr hv1]
                exact hleb
              rw [vcGetUserVaultShares_eq] at hleb1
              simp only [vcUpdateUserVaultShares, Bool.false_eq_true, if_false] at hV
              split at hV
              · cases hV
              · rename_i hguard
                exact hguard hleb1
            · rename_i s2 hV
              split at heq
              · simp at heq
              · simp at heq
  · intro s p sender t m ts h
    obtain ⟨hshares, hr, hsup, rfl⟩ := svWithdraw_ok_inv h
    refine ⟨hr, ?_⟩
    dsimp only
    unfold svGetTokenReserves at hr ⊢
    dsimp only
    rw [getA_setA_same]
    simp only [Option.getD_some]
    omega

/-- C4 witness: the VaultContract invariant and no-underflow statement at
the fresh vault (token WNEAR, withdraw request of 5), and the
SimpleVaultContract exact-debit statement at the deposit-50/withdraw-20
scenario. -/
theorem C4_reserve_never_underflows_witness :
    (vcGetTokenReserves (vcNew "o" "w" "u" "t" 0) TokenType.WNEAR = vcSumShares (vcNew "o" "w" "u" "t" 0) TokenType.WNEAR ∧
     vcWithdraw (vcNew "o" "w" "u" "t" 0) "alice" TokenType.WNEAR 5 0 ≠ Except.error VaultError.reserveUnderflow) ∧
    (20 ≤ svGetTokenReserves svAfterDep50 TokenType.WNEAR ∧
     svGetTokenReserves svAfterWd20.1 TokenType.WNEAR + 20 = svGetTokenReserves svAfterDep50 TokenType.WNEAR) :=
  ⟨⟨(C4_reserve_never_underflows.1 _ (VCReach.init "o" "w" "u" "t" 0)).1 TokenType.WNEAR,
    (C4_reserve_never_underflows.1 _ (VCReach.init "o" "w" "u" "t" 0)).2 "alice" TokenType.WNEAR 5 0⟩,
   C4_reserve_never_underflows.2 svAfterDep50 svAfterWd20 "alice" TokenType.WNEAR 20 0 (by rfl)⟩

/-- C5 counterexample: in a paused VaultContract, a withdrawal request whose
amount (200) strictly exceeds the caller's balance (0) fails with
vaultPaused, not with insufficientShares as the claim demands for every
state. -/
theorem C5_insufficient_shares_counterexample :
    vcPausedFresh.config.isPaused = true ∧
    vcGetUserVaultShares vcPausedFresh "alice" TokenType.WNEAR = 0 ∧
    vcWithdraw vcPausedFresh "alice" TokenType.WNEAR 200 0 = Except.error VaultError.vaultPaused ∧
    VaultError.vaultPaused ≠ VaultError.insufficientShares := by
  refine ⟨rfl, rfl, rfl, ?_⟩
  decide

/-- C5 (amended): whenever the requested share amount strictly exceeds the
caller's balance, withdraw fails with insufficientShares — unconditionally
in SimpleVaultContract, and in VaultContract provided the vault is not
paused (the paused check precedes the balance check); the error return
models the require! panic, which reverts every write, so no state changes
and no pending record exists. -/
theorem C5_insufficient_shares :
    (∀ (s : VCState) (a : String) (t : TokenType) (m ts : Nat),
      s.config.isPaused = false → vcGetUserVaultShares s a t < m →
      vcWithdraw s a t m ts = Except.error VaultError.insufficientShares) ∧
    (∀ (s : SVState) (a : String) (t : TokenType) (m ts : Nat),
      svGetUserVaultShares s a t < m →
      svWithdraw s a t m ts = Except.error VaultError.insufficientShares) := by
  constructor
  · intro s a t m ts hp hlt
    unfold vcWithdraw
    rw [hp]
    simp only [Bool.false_eq_true, if_false]
    rw [if_neg (by omega : ¬(m = 0)), if_pos hlt]
  · intro s a t m ts hlt
    unfold svGetUserVaultShares at hlt
    simp only [svWithdraw]
    rw [if_pos hlt]

/-- C5 witness: the amended statement at fresh states with a 200-share
request against balance 0. -/
theorem C5_insufficient_shares_witness :
    vcWithdraw (vcNew "o" "w" "u" "t" 0) "alice" TokenType.WNEAR 200 0 = Except.error VaultError.insufficientShares ∧
    svWithdraw (svNew "o" "w" "u" "t" 0) "alice" TokenType.WNEAR 200 0 = Except.error VaultError.insufficientShares :=
  ⟨C5_insufficient_shares.1 _ "alice" TokenType.WNEAR 200 0 rfl (by decide),
   C5_insufficient_shares.2 _ "alice" TokenType.WNEAR 200 0 (by decide)⟩

/-- C6 counterexample: SimpleVaultContract::deposit performs no validation
at all — a deposit of amount 0 is not rejected: it succeeds, returns 0
minted shares, and appends a deposit event (the log grows from 0 to 1
entries), contradicting the claimed synchronous rejection with an unchanged
event log. -/
theorem C6_zero_amount_counterexample :
    (svNew "o" "w" "u" "t" 0).depositEvents.length = 0 ∧
    (svDeposit (svNew "o" "w" "u" "t" 0) "alice" TokenType.WNEAR 0 0).map
        (fun p => (p.1.depositEvents.length, p.2)) =
      Except.ok (1, 0) := by
  exact ⟨rfl, rfl⟩

/-- C6 (amended): VaultContract's deposit and withdraw reject a call on a
paused vault with vaultPaused and a zero-amount call with a validation
error, in that order, before any mutation (the error models the require!
panic, which reverts every write); SimpleVaultContract performs neither
check. -/
theorem C6_vc_validation :
    ∀ (s : VCState) (a : String) (t : TokenType) (m ts : Nat),
      (s.config.isPaused = true →
        vcDeposit s a t m = Except.error VaultError.vaultPaused ∧
        vcWithdraw s a t m ts = Except.error VaultError.vaultPaused) ∧
      (s.config.isPaused = false →
        vcDeposit s a t 0 = Except.error VaultError.zeroAmount ∧
        vcWithdraw s a t 0 ts = Except.error VaultError.zeroAmount) := by
  intro s a t m ts
  constructor
  · intro hp
    constructor
    · unfold vcDeposit
      rw [hp]
      rfl
    · unfold vcWithdraw
      rw [hp]
      rfl
  · intro hp
    constructor
    · unfold vcDeposit
      rw [hp]
      rfl
    · unfold vcWithdraw
      rw [hp]
      rfl

/-- C6 witness: paused rejection at the freshly paused vault and
zero-amount rejection at the fresh vault. -/
theorem C6_vc_validation_witness :
    (vcDeposit vcPausedFresh "alice" TokenType.WNEAR 5 = Except.error VaultError.vaultPaused ∧
     vcWithdraw vcPausedFresh "alice" TokenType.WNEAR 5 0 = Except.error VaultError.vaultPaused) ∧
    (vcDeposit (vcNew "o" "w" "u" "t" 0) "alice" TokenType.WNEAR 0 = Except.error VaultError.zeroAmount ∧
     vcWithdraw (vcNew "o" "w" "u" "t" 0) "alice" TokenType.WNEAR 0 0 = Except.error VaultError.zeroAmount) :=
  ⟨(C6_vc_validation vcPausedFresh "alice" TokenType.WNEAR 5 0).1 rfl,
   (C6_vc_validation (vcNew "o" "w" "u" "t" 0) "alice" TokenType.WNEAR 0 0).2 rfl⟩

/-- C7 counterexample: VaultContract pushes deposit events with no bound —
after 1001 confirmed deposits (a reachable state) the deposit-event log
holds 1001 entries, exceeding the claimed 1000-entry capacity. -/
theorem C7_unbounded_log_counterexample :
    VCReach (vcDepositN 1001) ∧
    (vcDepositN 1001).depositEvents.length = 1001 ∧
    1000 < (vcDepositN 1001).depositEvents.length := by
  obtain ⟨hreach, hcfg, hsup, hres, hbal, hlen⟩ := vcDepositN_spec 1001 (by omega)
  refine ⟨hreach, hlen, ?_⟩
  omega

/-- C7 (amended): only vault-contract-v0 bounds its event logs: its
push-then-trim keeps the log at most 1000 entries, appends at the tail when
under capacity, and at capacity evicts exactly the head (oldest) entry,
preserving the order of the remaining entries; vault-contract and
simple-vault-contract push without bound. -/
theorem C7_v0_capped_append :
    ∀ {α : Type} (l : List α) (e : α), l.length ≤ 1000 →
      (v0PushEventCapped l e).length ≤ 1000 ∧
      (l.length < 1000 → v0PushEventCapped l e = l ++ [e]) ∧
      (l.length = 1000 → v0PushEventCapped l e = l.drop 1 ++ [e]) := by
  intro α l e hle
  unfold v0PushEventCapped
  dsimp only
  by_cases hl : l.length = 1000
  · have hcond : 1000 < (l ++ [e]).length := by
      simp
      omega
    rw [if_pos hcond]
    refine ⟨?_, ?_, ?_⟩
    · simp
      omega
    · intro hcontra
      exact absurd hcontra (by omega)
    · intro _
      rw [List.drop_append_of_le_length (by omega)]
  · have hcond : ¬(1000 < (l ++ [e]).length) := by
      simp
      omega
    rw [if_neg hcond]
    refine ⟨?_, fun _ => rfl, ?_⟩
    · simp
      omega
    · intro hcontra
      exact absurd hcontra hl

/-- C7 witness: the capped append applied to a full log of 1000 entries. -/
theorem C7_v0_capped_append_witness :
    (List.replicate 1000 (0 : Nat)).length ≤ 1000 ∧
    ((v0PushEventCapped (List.replicate 1000 (0 : Nat)) 7).length ≤ 1000 ∧
     ((List.replicate 1000 (0 : Nat)).length < 1000 →
       v0PushEventCapped (List.replicate 1000 (0 : Nat)) 7 = List.replicate 1000 (0 : Nat) ++ [7]) ∧
     ((List.replicate 1000 (0 : Nat)).length = 1000 →
       v0PushEventCapped (List.replicate 1000 (0 : Nat)) 7 = (List.replicate 1000 (0 : Nat)).drop 1 ++ [7])) :=
  ⟨by simp only [List.length_replicate]; omega,
   C7_v0_capped_append (List.replicate 1000 (0 : Nat)) 7 (by simp only [List.length_replicate]; omega)⟩

/-- C8: in both VaultContract and SimpleVaultContract, for every account and
state, get_user_total_shares equals the sum of get_user_vault_shares over
the three supported token types WNEAR, USDC and USDT. -/
theorem C8_total_shares_is_sum :
    (∀ (s : VCState) (a : String),
      vcGetUserTotalShares s a =
        vcGetUserVaultShares s a TokenType.WNEAR + vcGetUserVaultShares s a TokenType.USDC + vcGetUserVaultShares s a TokenType.USDT) ∧
    (∀ (s : SVState) (a : String),
      svGetUserTotalShares s a =
        svGetUserVaultShares s a TokenType.WNEAR + svGetUserVaultShares s a TokenType.USDC + svGetUserVaultShares s a TokenType.USDT) := by
  constructor
  · intro s a
    unfold vcGetUserTotalShares vcGetUserVaultShares
    cases getA s.vaultShares a <;> simp
  · intro s a
    unfold svGetUserTotalShares svGetUserVaultShares
    cases getA s.userShares a <;> simp [svSharesOf, svZeroShares]

/-- C9: the share-balance and reserve queries of all three vault variants
return 0 (without failing) for an account with no ledger record or an asset
with no reserve entry; being &self views, they create no record (the state
argument is read only). -/
theorem C9_missing_entries_return_zero :
    (∀ (s : VCState) (a : String) (t : TokenType),
      getA s.vaultShares a = none → vcGetUserVaultShares s a t = 0) ∧
    (∀ (s : VCState) (t : TokenType),
      getA s.tokenReserves t = none → vcGetTokenReserves s t = 0) ∧
    (∀ (s : SVState) (a : String) (t : TokenType),
      getA s.userShares a = none → svGetUserVaultShares s a t = 0) ∧
    (∀ (s : SVState) (t : TokenType),
      getA s.tokenReserves t = none → svGetTokenReserves s t = 0) ∧
    (∀ (accounts : List (String × V0VaultAccount)) (a : String),
      getA accounts a = none → v0GetUserVaultShares accounts a = 0) := by
  refine ⟨?_, ?_, ?_, ?_, ?_⟩
  · intro s a t h
    unfold vcGetUserVaultShares
    rw [h]
  · intro s t h
    unfold vcGetTokenReserves
    rw [h]
    rfl
  · intro s a t h
    unfold svGetUserVaultShares
    rw [h]
    cases t <;> rfl
  · intro s t h
    unfold svGetTokenReserves
    rw [h]
    rfl
  · intro acc a h
    unfold v0GetUserVaultShares
    rw [h]

/-- C9 witness: the zero-return behaviour at fresh states (and an emptied
reserve map for the SimpleVaultContract reserve query). -/
theorem C9_missing_entries_return_zero_witness :
    vcGetUserVaultShares (vcNew "o" "w" "u" "t" 0) "alice" TokenType.WNEAR = 0 ∧
    vcGetTokenReserves (vcNew "o" "w" "u" "t" 0) TokenType.USDC = 0 ∧
    svGetUserVaultShares (svNew "o" "w" "u" "t" 0) "alice" TokenType.USDT = 0 ∧
    svGetTokenReserves { svNew "o" "w" "u" "t" 0 with tokenReserves := [] } TokenType.USDC = 0 ∧
    v0GetUserVaultShares [] "alice" = 0 :=
  ⟨C9_missing_entries_return_zero.1 _ "alice" TokenType.WNEAR rfl,
   C9_missing_entries_return_zero.2.1 _ TokenType.USDC rfl,
   C9_missing_entries_return_zero.2.2.1 _ "alice" TokenType.USDT rfl,
   C9_missing_entries_return_zero.2.2.2.1 _ TokenType.USDC rfl,
   C9_missing_entries_return_zero.2.2.2.2 [] "alice" rfl⟩

/-- C10: every view call of VaultContract and SimpleVaultContract (config,
total supply, reserves, user shares, user total shares, event queries)
leaves the entire vault state unchanged — in the source each takes `&self`
and clones what it returns, and in the embedding the post-state of every
query is the input state. -/
theorem C10_queries_pure :
    (∀ (s : VCState) (q : VCQuery), (vcRunQuery s q).2 = s) ∧
    (∀ (s : SVState) (q : SVQuery), (svRunQuery s q).2 = s) := by
  constructor
  · intro s q
    cases q <;> rfl
  · intro s q
    cases q <;> rfl

end VaultSpec
